import Mathlib

/-!
Shallow embedding of `qsonic/scripts/qsonic_fit.py` (the qsonic continuum
fitting script) and proofs about its orchestration behaviour.

The script itself is pure orchestration: it reads a catalog partition,
builds maskers, reads spectra, applies masks, removes short spectra,
precomputes smoothed inverse variance, runs the continuum fitter to
convergence, filters down to valid spectra, optionally coadds arms and
saves deltas.  The collaborators it drives (`qsonic.io`, `qsonic.masks`,
`qsonic.spectrum`, `qsonic.picca_continuum`) live outside the excerpted
source; they enter the embedding either as oracle fields of an `Env`
record (when their exact behaviour is irrelevant to the claims) or as
definitions modelled from the specification (when a claim depends on the
spec's description of them).  Every embedded function also returns a
trace of events mirroring the calls and log lines the script performs, so
that ordering claims can be stated about the trace.
-/

namespace QsonicFit

/-- Identifier of one instrument arm of a spectrum.  The reader produces
the instrument arms (B, R, Z); `coadd_arms_forest` produces the single
combined arm. -/
inductive ArmId
  | B
  | R
  | Z
  | coadded
deriving DecidableEq

/-- One instrument arm of a spectrum: wavelength grid, flux, inverse
variance (0 marks a masked/invalid pixel) and the smoothed inverse
variance filled in by `set_smooth_ivar`. -/
structure Arm where
  id : ArmId
  wave : List ℚ
  flux : List ℚ
  ivar : List ℚ
  smooth_ivar : List ℚ
deriving DecidableEq

/-- One quasar observation as the orchestration script sees it: target
identifier, per-arm data, the scalar signal-to-noise summary `rsnr`
computed when the forest region is set, and the fitted continuum
parameters (`none` until fitted, and `none` again marks a failed fit). -/
structure Spectrum where
  targetid : ℤ
  arms : List Arm
  rsnr : ℚ
  cont_params : Option (ℚ × ℚ)
deriving DecidableEq

/-- Number of valid (unmasked) pixels of an arm: pixels whose inverse
variance is nonzero. -/
def Arm.num_valid_pix (a : Arm) : ℕ :=
  (a.ivar.filter (fun q => decide (q ≠ 0))).length

/-- Catalog slice for one healpix: the rows' target identifiers (the only
catalog content the excerpted script reads, via `cat['TARGETID']`). -/
structure Catalog where
  targetids : List ℤ
deriving DecidableEq

/-- Kind of a masker, used to label mask-application events. -/
inductive MaskerKind
  | sky
  | bal
  | dla
deriving DecidableEq

/-- A masker as built by `mpi_read_masks`: a constructed `SkyMask`
instance (holding the sky-mask path), the `BALMask` class object itself
(the script appends the class, not an instance, so the variant carries no
constructed state), or a constructed `DLAMask` instance (holding the DLA
catalog path, the concatenated local target ids and the
`dla_mask_limit` transmission floor). -/
inductive Masker
  | skyMask (path : String)
  | balMaskClass
  | dlaMask (path : String) (targetids : List ℤ) (dla_mask_limit : ℚ)
deriving DecidableEq

/-- The kind tag of a masker. -/
def Masker.kind : Masker → MaskerKind
  | .skyMask _ => .sky
  | .balMaskClass => .bal
  | .dlaMask _ _ _ => .dla

/-- Pipeline stages of `mpi_run_all`, in the order the source calls
them; used as trace markers. -/
inductive Stage
  | catalog
  | maskers
  | readSpectra
  | applyMasks
  | removeShort
  | smoothIvar
  | fit
  | filterValid
  | coadd
  | finalClean
  | save
deriving DecidableEq

/-- Exceptions the embedded script can raise: `indexError` models
`local_queue[0]` on an empty list, `balCatalogError` models
`BALMask.check_catalog` rejecting the catalog, `valueError` models
`np.concatenate` on an empty list of arrays. -/
inductive Err
  | indexError
  | balCatalogError
  | valueError
deriving DecidableEq

/-- Events emitted by the embedded script: one `stage` marker per
pipeline stage at the point the source performs it, plus one event per
collaborator call whose ordering a claim mentions, and the error log
line written by `main` on failure. -/
inductive Ev
  | stage (t : Stage)
  | setBlinding
  | skyRead (path : String)
  | balCheck (cat : Catalog)
  | dlaRead (path : String)
  | setForest (tid : ℤ)
  | removeNonforest (tid : ℤ)
  | applyMask (k : MaskerKind) (tid : ℤ)
  | dropShort (tid : ℤ)
  | setSmoothIvar (tid : ℤ)
  | coaddArms (tid : ℤ)
  | finalDrop (tid : ℤ)
  | errorLog (e : Err)
deriving DecidableEq

/-- The stage marker of an event, if it is one. -/
def stageTag : Ev → Option Stage
  | .stage t => some t
  | _ => none

/-- Command-line options of the script that the excerpted orchestration
code reads.  Paths default to `none` (Python `None`); `if args.x:` on a
path is modelled as `args.x` being `some` path. -/
structure Args where
  sky_mask : Option String
  bal_mask : Option String
  dla_mask : Option String
  keep_nonforest_pixels : Bool
  min_rsnr : ℚ
  wave1 : ℚ
  wave2 : ℚ
  forest_w1 : ℚ
  forest_w2 : ℚ
  skip : ℚ
  coadd_arms : Bool

/-- External collaborators of the script, as oracles.  Fields of this
record stand for qsonic functions outside the excerpted source whose
exact behaviour the claims do not depend on; per the spec's contracts,
per-spectrum transforms act arm by arm and never touch the arm identifier
list (the embedding forces identifier preservation where the spec
requires it).  `args` stands for the result of `mpi_parse(get_parser())`
and `localQueue` for the result of
`qsonic.catalog.mpi_read_local_qso_catalog`. -/
structure Env where
  args : Args
  localQueue : List Catalog
  read_spectra_onehealpix : Catalog → List Spectrum
  balCatalogOk : Catalog → Bool
  forestArm : ℚ → ℚ → ℚ → ℚ → Arm → Arm
  rsnrOf : Spectrum → ℚ
  nonforestArm : Arm → Arm
  maskArm : Masker → Arm → Arm
  is_long : Spectrum → ℚ → ℚ → Bool
  fitResult : Spectrum → Option (ℚ × ℚ)
  smoothArm : Arm → Arm
  coaddArm : List Arm → Arm
  armLongEnough : ℚ → ℚ → ℚ → Arm → Bool
  minpix : ℕ

/-- Modelled from the spec: `Spectrum.set_forest_region` derives the
forest window of each arm (an arm-wise pixel transform, arms keep their
identifiers) and computes the signal-to-noise summary `rsnr`; the window
bounds come from the script options. -/
def Spectrum.set_forest_region (env : Env) (w1 w2 fw1 fw2 : ℚ) (s : Spectrum) :
    Spectrum :=
  { s with
    arms := s.arms.map (fun a => { env.forestArm w1 w2 fw1 fw2 a with id := a.id })
    rsnr := env.rsnrOf s }

/-- Modelled from the spec: `Spectrum.remove_nonforest_pixels` drops the
pixels outside the forest window, arm by arm; arms keep their
identifiers. -/
def Spectrum.remove_nonforest_pixels (env : Env) (s : Spectrum) : Spectrum :=
  { s with arms := s.arms.map (fun a => { env.nonforestArm a with id := a.id }) }

/-- Modelled from the spec: `Spectrum.drop_short_arms` removes from the
spectrum every arm whose valid-pixel count is below the minimum; the
three-argument final-cleaning call additionally applies a length
criterion, passed here as the `extraKeep` predicate. -/
def Spectrum.drop_short_arms (minpix : ℕ) (extraKeep : Arm → Bool) (s : Spectrum) :
    Spectrum :=
  { s with arms := s.arms.filter (fun a => decide (minpix ≤ a.num_valid_pix) && extraKeep a) }

/-- Modelled from the spec: `Masker.apply` mutates inverse variance (and,
for the DLA masker, flux) of each arm in place; it neither adds nor
removes arms nor changes their identifiers. -/
def Masker.apply (env : Env) (m : Masker) (s : Spectrum) : Spectrum :=
  { s with arms := s.arms.map (fun a => { env.maskArm m a with id := a.id }) }

/-- Modelled from the spec: `Spectrum.set_smooth_ivar` computes the
smoothed inverse variance of each arm as an intermediate fitting weight;
arms keep their identifiers. -/
def Spectrum.set_smooth_ivar (env : Env) (s : Spectrum) : Spectrum :=
  { s with arms := s.arms.map (fun a => { env.smoothArm a with id := a.id }) }

/-- Modelled from the spec: `PiccaContinuumFitter.iterate` alternates
per-spectrum fits with global-function updates until convergence; its
only per-spectrum side effect is writing the fitted continuum parameters
(or a failure marker) onto each spectrum. -/
def iterate (env : Env) (spectra_list : List Spectrum) : List Spectrum :=
  spectra_list.map (fun s => { s with cont_params := env.fitResult s })

/-- Modelled from the spec: `qsonic.spectrum.valid_spectra` yields the
spectra whose continuum fit succeeded. -/
def valid_spectra (spectra_list : List Spectrum) : List Spectrum :=
  spectra_list.filter (fun s => s.cont_params.isSome)

/-- Modelled from the spec: `Spectrum.coadd_arms_forest` combines the
spectrum's arms into the single coadded arm. -/
def Spectrum.coadd_arms_forest (env : Env) (s : Spectrum) : Spectrum :=
  { s with arms := [{ env.coaddArm s.arms with id := ArmId.coadded }] }

/-- Modelled from the spec: the `DLAMask` damping-wing correction has a
configurable minimum transmission floor `dla_mask_limit` defaulting to
0.8, below which affected pixels are masked outright rather than
corrected.  The rational is written in lowest terms so that concrete
evaluation never normalizes. -/
def DLAMask.default_dla_mask_limit : ℚ := ⟨4, 5, by decide, by decide⟩

/-- Embedding of the per-spectrum body of the reading loop of
`mpi_read_spectra_local_queue`: set the forest region, then, unless
`keep_nonforest_pixels` is set, remove the non-forest pixels. -/
def processSpec (env : Env) (s : Spectrum) : Spectrum × List Ev :=
  let s1 := Spectrum.set_forest_region env
    env.args.wave1 env.args.wave2 env.args.forest_w1 env.args.forest_w2 s
  if env.args.keep_nonforest_pixels then
    (s1, [Ev.setForest s.targetid])
  else
    (Spectrum.remove_nonforest_pixels env s1,
     [Ev.setForest s.targetid, Ev.removeNonforest s.targetid])

/-- Embedding of `mpi_read_spectra_local_queue`: for each healpix catalog
read its spectra, set forest regions (dropping non-forest pixels unless
kept), and extend the result with the spectra whose `rsnr` exceeds
`args.min_rsnr`. -/
def mpi_read_spectra_local_queue (env : Env) (local_queue : List Catalog) :
    List Spectrum × List Ev :=
  (local_queue.flatMap (fun cat =>
      ((env.read_spectra_onehealpix cat).map (fun s => (processSpec env s).1)).filter
        (fun s => decide (env.args.min_rsnr < s.rsnr))),
   local_queue.flatMap (fun cat =>
      (env.read_spectra_onehealpix cat).flatMap (fun s => (processSpec env s).2)))

/-- Embedding of the DLA branch of `mpi_read_masks`: when the DLA mask
option is set, concatenate the local target ids (`np.concatenate` raises
on an empty list of arrays) and append a constructed `DLAMask` with
`dla_mask_limit=0.8`. -/
def dlaBranch (env : Env) (local_queue : List Catalog)
    (ms : List Masker) (tr : List Ev) : Except Err (List Masker × List Ev) :=
  match env.args.dla_mask with
  | some path =>
    if local_queue.isEmpty then
      .error .valueError
    else
      let local_targetids := (local_queue.map Catalog.targetids).flatten
      .ok (ms ++ [Masker.dlaMask path local_targetids DLAMask.default_dla_mask_limit],
           tr ++ [Ev.dlaRead path])
  | none => .ok (ms, tr)

/-- Embedding of `mpi_read_masks`: build the masker list, appending the
sky masker, then (after checking the BAL catalog against
`local_queue[0]`) the `BALMask` class, then the DLA masker. -/
def mpi_read_masks (env : Env) (local_queue : List Catalog) :
    Except Err (List Masker × List Ev) :=
  let skyPart : List Masker × List Ev :=
    match env.args.sky_mask with
    | some path => ([Masker.skyMask path], [Ev.skyRead path])
    | none => ([], [])
  match env.args.bal_mask with
  | some _ =>
    match local_queue with
    | [] => .error .indexError
    | cat0 :: _ =>
      if env.balCatalogOk cat0 then
        dlaBranch env local_queue (skyPart.1 ++ [Masker.balMaskClass])
          (skyPart.2 ++ [Ev.balCheck cat0])
      else
        .error .balCatalogError
  | none => dlaBranch env local_queue skyPart.1 skyPart.2

/-- Embedding of the inner masker loop of `apply_masks`:
`for masker in maskers: masker.apply(spec)`. -/
def applyMaskersToSpec (env : Env) : List Masker → Spectrum → Spectrum × List Ev
  | [], s => (s, [])
  | m :: ms, s =>
    let s1 := Masker.apply env m s
    let rest := applyMaskersToSpec env ms s1
    (rest.1, Ev.applyMask m.kind s.targetid :: rest.2)

/-- Embedding of `apply_masks`: return immediately when no maskers are
configured; otherwise apply every masker to every spectrum, front to
back, and drop each spectrum's short arms after its masker loop. -/
def apply_masks (env : Env) (maskers : List Masker) (spectra_list : List Spectrum) :
    List Spectrum × List Ev :=
  if maskers.isEmpty then
    (spectra_list, [])
  else
    (spectra_list.map (fun s =>
        Spectrum.drop_short_arms env.minpix (fun _ => true)
          (applyMaskersToSpec env maskers s).1),
     spectra_list.flatMap (fun s =>
        (applyMaskersToSpec env maskers s).2
          ++ [Ev.dropShort (applyMaskersToSpec env maskers s).1.targetid]))

/-- Embedding of `remove_short_spectra`: return the list unchanged when
`skip_ratio` is falsy (zero), otherwise keep the spectra for which
`is_long(lya2 - lya1, skip_ratio)` holds. -/
def remove_short_spectra (env : Env) (spectra_list : List Spectrum)
    (lya1 lya2 skip_ratio : ℚ) : List Spectrum :=
  if skip_ratio = 0 then
    spectra_list
  else
    spectra_list.filter (fun s => env.is_long s (lya2 - lya1) skip_ratio)

/-- The intermediate values `mpi_run_all` threads between its stages,
recorded so that each stage's working set can be inspected, plus the
event trace of the whole run. -/
structure RunOutcome where
  local_queue : List Catalog
  maskers : List Masker
  spectra0 : List Spectrum
  masked : List Spectrum
  afterShort : List Spectrum
  afterSmooth : List Spectrum
  afterFit : List Spectrum
  afterValid : List Spectrum
  afterCoadd : List Spectrum
  final : List Spectrum
  trace : List Ev
deriving DecidableEq

/-- Embedding of `mpi_run_all`: the stages in source order.  Catalog
reading, blinding setup, output-directory creation and the actual delta
writing are collaborator calls with no return value the script reads, so
they appear only as trace markers. -/
def mpi_run_all (env : Env) : Except Err RunOutcome :=
  let local_queue := env.localQueue
  match mpi_read_masks env local_queue with
  | .error e => .error e
  | .ok (maskers, trM) =>
    let readPair := mpi_read_spectra_local_queue env local_queue
    let maskPair := apply_masks env maskers readPair.1
    let afterShort := remove_short_spectra env maskPair.1
      env.args.forest_w1 env.args.forest_w2 env.args.skip
    let afterSmooth := afterShort.map (Spectrum.set_smooth_ivar env)
    let afterFit := iterate env afterSmooth
    let afterValid := valid_spectra afterFit
    let coaddPair : List Spectrum × List Ev :=
      if env.args.coadd_arms then
        (afterValid.map (Spectrum.coadd_arms_forest env),
         Ev.stage .coadd :: afterValid.map (fun s => Ev.coaddArms s.targetid))
      else
        (afterValid, [])
    let final := coaddPair.1.map (fun s =>
      Spectrum.drop_short_arms env.minpix
        (env.armLongEnough env.args.forest_w1 env.args.forest_w2 env.args.skip) s)
    .ok
      { local_queue := local_queue
        maskers := maskers
        spectra0 := readPair.1
        masked := maskPair.1
        afterShort := afterShort
        afterSmooth := afterSmooth
        afterFit := afterFit
        afterValid := afterValid
        afterCoadd := coaddPair.1
        final := final
        trace :=
          [Ev.stage .catalog, Ev.setBlinding, Ev.stage .maskers] ++ trM
            ++ [Ev.stage .readSpectra] ++ readPair.2
            ++ [Ev.stage .applyMasks] ++ maskPair.2
            ++ [Ev.stage .removeShort]
            ++ [Ev.stage .smoothIvar]
            ++ afterShort.map (fun s => Ev.setSmoothIvar s.targetid)
            ++ [Ev.stage .fit]
            ++ [Ev.stage .filterValid]
            ++ coaddPair.2
            ++ [Ev.stage .finalClean]
            ++ coaddPair.1.map (fun s => Ev.finalDrop s.targetid)
            ++ [Ev.stage .save] }

/-- Embedding of `main`: run `mpi_run_all`; on an exception, log the
error and return 1; otherwise return 0. -/
def main (env : Env) : ℕ × List Ev :=
  match mpi_run_all env with
  | .error e => (1, [Ev.errorLog e])
  | .ok _ => (0, [])

/-- The arm identifiers of a spectrum, in order. -/
def armIds (s : Spectrum) : List ArmId :=
  s.arms.map Arm.id

/-- The catalog checked by a BAL-catalog-check event, if it is one. -/
def balCheckOf : Ev → Option Catalog
  | .balCheck c => some c
  | _ => none

/-- The run outcome of an environment, with an empty outcome standing in
for a raised exception. -/
def outcomeOf (env : Env) : RunOutcome :=
  match mpi_run_all env with
  | .ok o => o
  | .error _ => ⟨[], [], [], [], [], [], [], [], [], [], []⟩

/-- The masker list produced by `mpi_read_masks`, empty on an exception. -/
def msOf (env : Env) (local_queue : List Catalog) : List Masker :=
  match mpi_read_masks env local_queue with
  | .ok (ms, _) => ms
  | .error _ => []

/-- The trace produced by `mpi_read_masks`, empty on an exception. -/
def trOf (env : Env) (local_queue : List Catalog) : List Ev :=
  match mpi_read_masks env local_queue with
  | .ok (_, tr) => tr
  | .error _ => []

/-- A spectrum descends from the post-masking working set: some spectrum
of the masked list has its target id and carries every one of its arm
identifiers, except possibly the coadded arm. -/
def descends (o : RunOutcome) (s : Spectrum) : Prop :=
  ∃ s0 ∈ o.masked, s0.targetid = s.targetid ∧
    ∀ a ∈ s.arms, a.id = ArmId.coadded ∨ a.id ∈ armIds s0

/-- A concrete arm used by the test environments. -/
def arm0 : Arm :=
  { id := ArmId.B, wave := [1, 2], flux := [1, 1], ivar := [1, 1], smooth_ivar := [] }

/-- A concrete spectrum used by the test environments. -/
def spec0 : Spectrum :=
  { targetid := 7, arms := [arm0], rsnr := 0, cont_params := none }

/-- A concrete catalog slice used by the test environments. -/
def cat0 : Catalog := { targetids := [7] }

/-- Concrete options with every mask disabled. -/
def args0 : Args :=
  { sky_mask := none, bal_mask := none, dla_mask := none,
    keep_nonforest_pixels := false, min_rsnr := 0, wave1 := 3600, wave2 := 6000,
    forest_w1 := 1040, forest_w2 := 1200, skip := 0, coadd_arms := false }

/-- A concrete environment with an empty catalog partition and every
mask disabled. -/
def env0 : Env :=
  { args := args0
    localQueue := []
    read_spectra_onehealpix := fun _ => []
    balCatalogOk := fun _ => true
    forestArm := fun _ _ _ _ a => a
    rsnrOf := fun _ => 1
    nonforestArm := fun a => a
    maskArm := fun _ a => a
    is_long := fun _ _ _ => true
    fitResult := fun _ => some (1, 0)
    smoothArm := fun a => a
    coaddArm := fun _ => arm0
    armLongEnough := fun _ _ _ _ => true
    minpix := 0 }

/-- A concrete environment with one catalog slice, one spectrum, all
three masks enabled and arm coaddition on. -/
def env2 : Env :=
  { env0 with
    args := { args0 with
      sky_mask := some "skyfile", bal_mask := some "balflag",
      dla_mask := some "dlafile", coadd_arms := true }
    localQueue := [cat0]
    read_spectra_onehealpix := fun _ => [spec0] }

/-- A concrete environment with the BAL mask enabled but an empty
catalog partition, so that `local_queue[0]` raises. -/
def env3 : Env :=
  { env0 with args := { args0 with bal_mask := some "balflag" } }

/-- Mapping each arm through a transform that is forced to keep its
identifier leaves the identifier list unchanged. -/
lemma map_id_forced (g : Arm → Arm) (l : List Arm) :
    (l.map (fun a => { g a with id := a.id })).map Arm.id = l.map Arm.id := by
  induction l with
  | nil => rfl
  | cons a t ih => simp [ih]

lemma armIds_apply (env : Env) (m : Masker) (s : Spectrum) :
    armIds (Masker.apply env m s) = armIds s :=
  map_id_forced _ _

lemma targetid_apply (env : Env) (m : Masker) (s : Spectrum) :
    (Masker.apply env m s).targetid = s.targetid :=
  rfl

lemma armIds_set_forest_region (env : Env) (w1 w2 fw1 fw2 : ℚ) (s : Spectrum) :
    armIds (Spectrum.set_forest_region env w1 w2 fw1 fw2 s) = armIds s :=
  map_id_forced _ _

lemma armIds_remove_nonforest (env : Env) (s : Spectrum) :
    armIds (Spectrum.remove_nonforest_pixels env s) = armIds s :=
  map_id_forced _ _

lemma armIds_set_smooth_ivar (env : Env) (s : Spectrum) :
    armIds (Spectrum.set_smooth_ivar env s) = armIds s :=
  map_id_forced _ _

lemma armIds_drop_short_arms (minpix : ℕ) (k : Arm → Bool) (s : Spectrum) :
    armIds (Spectrum.drop_short_arms minpix k s) ⊆ armIds s := by
  intro i hi
  simp only [armIds, Spectrum.drop_short_arms, List.mem_map] at hi ⊢
  rcases hi with ⟨a, ha, rfl⟩
  exact ⟨a, (List.mem_filter.mp ha).1, rfl⟩

lemma applyMaskersToSpec_fst_targetid (env : Env) (ms : List Masker) (s : Spectrum) :
    (applyMaskersToSpec env ms s).1.targetid = s.targetid := by
  induction ms generalizing s with
  | nil => rfl
  | cons m t ih => simpa [applyMaskersToSpec] using ih (Masker.apply env m s)

lemma applyMaskersToSpec_fst_armIds (env : Env) (ms : List Masker) (s : Spectrum) :
    armIds (applyMaskersToSpec env ms s).1 = armIds s := by
  induction ms generalizing s with
  | nil => rfl
  | cons m t ih =>
    simpa [applyMaskersToSpec, armIds_apply] using ih (Masker.apply env m s)

lemma applyMaskersToSpec_snd (env : Env) (ms : List Masker) (s : Spectrum) :
    (applyMaskersToSpec env ms s).2 =
      ms.map (fun m => Ev.applyMask m.kind s.targetid) := by
  induction ms generalizing s with
  | nil => rfl
  | cons m t ih =>
    simpa [applyMaskersToSpec] using ih (Masker.apply env m s)

lemma processSpec_fst_targetid (env : Env) (s : Spectrum) :
    ((processSpec env s).1).targetid = s.targetid := by
  unfold processSpec
  by_cases h : env.args.keep_nonforest_pixels <;> simp [h] <;> rfl

lemma processSpec_fst_armIds (env : Env) (s : Spectrum) :
    armIds (processSpec env s).1 = armIds s := by
  unfold processSpec
  by_cases h : env.args.keep_nonforest_pixels <;>
    simp [h, armIds_remove_nonforest, armIds_set_forest_region]

/-- Membership in the post-masking list: every masked spectrum comes from
a read spectrum with the same target id and a superset of its arm
identifiers. -/
lemma mem_apply_masks (env : Env) (ms : List Masker) (sl : List Spectrum)
    {t : Spectrum} (h : t ∈ (apply_masks env ms sl).1) :
    ∃ s ∈ sl, t.targetid = s.targetid ∧ armIds t ⊆ armIds s := by
  unfold apply_masks at h
  by_cases he : ms.isEmpty
  · rw [if_pos he] at h
    exact ⟨t, h, rfl, fun i hi => hi⟩
  · rw [if_neg he] at h
    rcases List.mem_map.mp h with ⟨s, hs, rfl⟩
    refine ⟨s, hs, ?_, ?_⟩
    · exact applyMaskersToSpec_fst_targetid env ms s
    · intro i hi
      have h1 := armIds_drop_short_arms env.minpix (fun _ => true)
        (applyMaskersToSpec env ms s).1 hi
      rw [applyMaskersToSpec_fst_armIds] at h1
      exact h1

/-- Membership in the freshly read working set: every spectrum of
`mpi_read_spectra_local_queue` is the processed form of a reader
spectrum. -/
lemma mem_read_spectra (env : Env) (lq : List Catalog) {s : Spectrum}
    (h : s ∈ (mpi_read_spectra_local_queue env lq).1) :
    ∃ cat ∈ lq, ∃ raw ∈ env.read_spectra_onehealpix cat,
      s = (processSpec env raw).1 := by
  unfold mpi_read_spectra_local_queue at h
  simp only [List.mem_flatMap, List.mem_filter, List.mem_map] at h
  rcases h with ⟨cat, hcat, ⟨⟨raw, hraw, rfl⟩, _⟩⟩
  exact ⟨cat, hcat, raw, hraw, rfl⟩

lemma mem_remove_short_spectra (env : Env) (sl : List Spectrum)
    (l1 l2 sk : ℚ) {s : Spectrum}
    (h : s ∈ remove_short_spectra env sl l1 l2 sk) : s ∈ sl := by
  unfold remove_short_spectra at h
  by_cases h0 : sk = 0
  · rwa [if_pos h0] at h
  · rw [if_neg h0] at h
    exact List.mem_filter.mp h |>.1

/-- The trace of the DLA branch adds no stage marker and at most one
`dlaRead` event, and it only appends to the masker list. -/
lemma dlaBranch_ok (env : Env) (lq : List Catalog) (ms0 : List Masker)
    (tr0 : List Ev) {ms : List Masker} {tr : List Ev}
    (h : dlaBranch env lq ms0 tr0 = .ok (ms, tr)) :
    (env.args.dla_mask = none ∧ ms = ms0 ∧ tr = tr0) ∨
      ∃ p, env.args.dla_mask = some p ∧
        ms = ms0 ++ [Masker.dlaMask p ((lq.map Catalog.targetids).flatten)
          DLAMask.default_dla_mask_limit] ∧
        tr = tr0 ++ [Ev.dlaRead p] := by
  unfold dlaBranch at h
  rcases hd : env.args.dla_mask with _ | p <;> rw [hd] at h <;> dsimp only at h
  · cases h
    exact Or.inl ⟨rfl, rfl, rfl⟩
  · by_cases he : lq.isEmpty
    · rw [if_pos he] at h
      cases h
    · rw [if_neg he] at h
      cases h
      exact Or.inr ⟨p, rfl, rfl, rfl⟩

/-- A successful `mpi_read_masks` produces a trace of mask-construction
events only: some prefix of sky-read and BAL-check events, possibly
followed by a DLA-read event. -/
lemma mpi_read_masks_ok (env : Env) (lq : List Catalog)
    {ms : List Masker} {tr : List Ev}
    (h : mpi_read_masks env lq = .ok (ms, tr)) :
    ∃ base : List Masker × List Ev,
      ((env.args.sky_mask = none ∧ env.args.bal_mask = none ∧
          base = ([], [])) ∨
        (∃ p, env.args.sky_mask = some p ∧ env.args.bal_mask = none ∧
          base = ([Masker.skyMask p], [Ev.skyRead p])) ∨
        (∃ c rest, lq = c :: rest ∧ env.balCatalogOk c = true ∧
          ((env.args.sky_mask = none ∧ (∃ pb, env.args.bal_mask = some pb) ∧
              base = ([Masker.balMaskClass], [Ev.balCheck c])) ∨
            (∃ p pb, env.args.sky_mask = some p ∧ env.args.bal_mask = some pb ∧
              base = ([Masker.skyMask p, Masker.balMaskClass],
                      [Ev.skyRead p, Ev.balCheck c]))))) ∧
      dlaBranch env lq base.1 base.2 = .ok (ms, tr) := by
  unfold mpi_read_masks at h
  rcases hs : env.args.sky_mask with _ | p <;> rw [hs] at h <;>
    rcases hb : env.args.bal_mask with _ | pb <;> rw [hb] at h
  · exact ⟨([], []), Or.inl ⟨rfl, rfl, rfl⟩, h⟩
  · rcases lq with _ | ⟨c, rest⟩ <;> dsimp only at h
    · cases h
    · by_cases hc : env.balCatalogOk c
      · rw [if_pos hc] at h
        exact ⟨([Masker.balMaskClass], [Ev.balCheck c]),
          Or.inr (Or.inr ⟨c, rest, rfl, hc, Or.inl ⟨rfl, ⟨pb, rfl⟩, rfl⟩⟩), h⟩
      · rw [if_neg hc] at h
        cases h
  · exact ⟨([Masker.skyMask p], [Ev.skyRead p]), Or.inr (Or.inl ⟨p, rfl, rfl, rfl⟩), h⟩
  · rcases lq with _ | ⟨c, rest⟩ <;> dsimp only at h
    · cases h
    · by_cases hc : env.balCatalogOk c
      · rw [if_pos hc] at h
        exact ⟨([Masker.skyMask p, Masker.balMaskClass],
            [Ev.skyRead p, Ev.balCheck c]),
          Or.inr (Or.inr ⟨c, rest, rfl, hc, Or.inr ⟨p, pb, rfl, rfl, rfl⟩⟩), h⟩
      · rw [if_neg hc] at h
        cases h

/-- The trace of a successful `mpi_read_masks` carries no stage marker. -/
lemma masks_trace_stage_free (env : Env) (lq : List Catalog)
    {ms : List Masker} {tr : List Ev}
    (h : mpi_read_masks env lq = .ok (ms, tr)) :
    tr.filterMap stageTag = [] := by
  rcases mpi_read_masks_ok env lq h with ⟨base, hbase, hdla⟩
  rcases dlaBranch_ok env lq base.1 base.2 hdla with ⟨-, -, rfl⟩ | ⟨p, -, -, rfl⟩ <;>
    rcases hbase with ⟨-, -, rfl⟩ | ⟨p2, -, -, rfl⟩ | ⟨c, rest, -, -,
      (⟨-, ⟨pb, -⟩, rfl⟩ | ⟨p2, pb, -, -, rfl⟩)⟩ <;>
    simp [stageTag]

lemma processSpec_trace_stage_free (env : Env) (s : Spectrum) :
    ∀ e ∈ (processSpec env s).2, stageTag e = none := by
  unfold processSpec
  by_cases h : env.args.keep_nonforest_pixels <;> simp [h, stageTag]

/-- The trace of `mpi_read_spectra_local_queue` carries no stage
marker. -/
lemma read_spectra_trace_stage_free (env : Env) (lq : List Catalog) :
    ((mpi_read_spectra_local_queue env lq).2).filterMap stageTag = [] := by
  refine List.filterMap_eq_nil_iff.mpr ?_
  intro e he
  unfold mpi_read_spectra_local_queue at he
  simp only [List.mem_flatMap] at he
  rcases he with ⟨cat, -, s, -, he⟩
  exact processSpec_trace_stage_free env s e he

/-- The trace of `apply_masks` carries no stage marker. -/
lemma apply_masks_trace_stage_free (env : Env) (ms : List Masker)
    (sl : List Spectrum) :
    ((apply_masks env ms sl).2).filterMap stageTag = [] := by
  refine List.filterMap_eq_nil_iff.mpr ?_
  intro e he
  unfold apply_masks at he
  by_cases h : ms.isEmpty
  · rw [if_pos h] at he
    simp at he
  · rw [if_neg h] at he
    simp only [List.mem_flatMap, List.mem_append] at he
    rcases he with ⟨s, -, he | he⟩
    · rw [applyMaskersToSpec_snd] at he
      rcases List.mem_map.mp he with ⟨m, -, rfl⟩
      rfl
    · rcases List.mem_singleton.mp he with rfl
      rfl

/-- Inversion of a successful run: the outcome's fields are exactly the
stage compositions the source performs, in source order, and the trace is
the concatenation of the stages' traces. -/
lemma mpi_run_all_fields (env : Env) (o : RunOutcome)
    (h : mpi_run_all env = .ok o) :
    ∃ trM : List Ev,
      mpi_read_masks env env.localQueue = .ok (o.maskers, trM) ∧
      o.local_queue = env.localQueue ∧
      o.spectra0 = (mpi_read_spectra_local_queue env env.localQueue).1 ∧
      o.masked = (apply_masks env o.maskers o.spectra0).1 ∧
      o.afterShort = remove_short_spectra env o.masked
        env.args.forest_w1 env.args.forest_w2 env.args.skip ∧
      o.afterSmooth = o.afterShort.map (Spectrum.set_smooth_ivar env) ∧
      o.afterFit = iterate env o.afterSmooth ∧
      o.afterValid = valid_spectra o.afterFit ∧
      o.afterCoadd = (if env.args.coadd_arms then
        o.afterValid.map (Spectrum.coadd_arms_forest env) else o.afterValid) ∧
      o.final = o.afterCoadd.map (fun s => Spectrum.drop_short_arms env.minpix
        (env.armLongEnough env.args.forest_w1 env.args.forest_w2 env.args.skip) s) ∧
      o.trace =
        [Ev.stage .catalog, Ev.setBlinding, Ev.stage .maskers] ++ trM
          ++ [Ev.stage .readSpectra]
          ++ (mpi_read_spectra_local_queue env env.localQueue).2
          ++ [Ev.stage .applyMasks] ++ (apply_masks env o.maskers o.spectra0).2
          ++ [Ev.stage .removeShort] ++ [Ev.stage .smoothIvar]
          ++ o.afterShort.map (fun s => Ev.setSmoothIvar s.targetid)
          ++ [Ev.stage .fit] ++ [Ev.stage .filterValid]
          ++ (if env.args.coadd_arms then
              Ev.stage .coadd :: o.afterValid.map (fun s => Ev.coaddArms s.targetid)
            else [])
          ++ [Ev.stage .finalClean]
          ++ o.afterCoadd.map (fun s => Ev.finalDrop s.targetid)
          ++ [Ev.stage .save] := by
  unfold mpi_run_all at h
  dsimp only at h
  rcases hm : mpi_read_masks env env.localQueue with e | ⟨ms, trM⟩ <;>
    rw [hm] at h <;> dsimp only at h
  · cases h
  · cases h
    refine ⟨trM, rfl, rfl, rfl, rfl, rfl, rfl, rfl, rfl, ?_, rfl, ?_⟩ <;>
      cases hc : env.args.coadd_arms <;> simp [hc]

/-- A list of events all mapping to no stage marker filters to the empty
marker list. -/
lemma filterMap_stageTag_map {α : Type} (f : α → Ev)
    (hf : ∀ a, stageTag (f a) = none) (l : List α) :
    (l.map f).filterMap stageTag = [] := by
  induction l with
  | nil => rfl
  | cons a t ih => simp [hf, ih]

/-- C1: every run of `mpi_run_all` performs the pipeline stages in the
spec's data-flow order — catalog partition, masker construction, spectra
reading with forest windowing, mask application, short-spectrum removal,
smoothed-inverse-variance precomputation, the iteration engine, the
valid-spectra filter, optional arm coaddition and only then delta
emission — and coaddition and delta saving operate solely on the
post-fit valid spectra: the coadded list is built from the valid-spectra
filter of the fitted list, and the saved list from the coadded list
alone. -/
theorem mpi_run_all_stage_order (env : Env) (o : RunOutcome)
    (h : mpi_run_all env = .ok o) :
    o.trace.filterMap stageTag =
      [Stage.catalog, Stage.maskers, Stage.readSpectra, Stage.applyMasks,
       Stage.removeShort, Stage.smoothIvar, Stage.fit, Stage.filterValid]
        ++ (if env.args.coadd_arms then [Stage.coadd] else [])
        ++ [Stage.finalClean, Stage.save] ∧
    o.spectra0 = (mpi_read_spectra_local_queue env env.localQueue).1 ∧
    o.masked = (apply_masks env o.maskers o.spectra0).1 ∧
    o.afterShort = remove_short_spectra env o.masked
      env.args.forest_w1 env.args.forest_w2 env.args.skip ∧
    o.afterSmooth = o.afterShort.map (Spectrum.set_smooth_ivar env) ∧
    o.afterFit = iterate env o.afterSmooth ∧
    o.afterValid = valid_spectra o.afterFit ∧
    o.afterCoadd = (if env.args.coadd_arms then
      o.afterValid.map (Spectrum.coadd_arms_forest env) else o.afterValid) ∧
    o.final = o.afterCoadd.map (fun s => Spectrum.drop_short_arms env.minpix
      (env.armLongEnough env.args.forest_w1 env.args.forest_w2 env.args.skip) s) := by
  obtain ⟨trM, hm, -, h0, h1, h2, h3, h4, h5, h6, h7, htr⟩ :=
    mpi_run_all_fields env o h
  refine ⟨?_, h0, h1, h2, h3, h4, h5, h6, h7⟩
  rw [htr]
  have hM := masks_trace_stage_free env env.localQueue hm
  have hA := filterMap_stageTag_map
    (fun s : Spectrum => Ev.setSmoothIvar s.targetid) (fun _ => rfl)
  have hB := filterMap_stageTag_map
    (fun s : Spectrum => Ev.coaddArms s.targetid) (fun _ => rfl)
  have hC := filterMap_stageTag_map
    (fun s : Spectrum => Ev.finalDrop s.targetid) (fun _ => rfl)
  cases hc : env.args.coadd_arms <;>
    simp [hc, List.filterMap_append, hM, read_spectra_trace_stage_free,
      apply_masks_trace_stage_free, stageTag, hA, hB, hC]

/-- Concrete instance of C1: a run with all masks and coaddition enabled
visits the stages in the specified order. -/
theorem mpi_run_all_stage_order_witness :
    mpi_run_all env2 = .ok (outcomeOf env2) ∧
    (outcomeOf env2).trace.filterMap stageTag =
      [Stage.catalog, Stage.maskers, Stage.readSpectra, Stage.applyMasks,
       Stage.removeShort, Stage.smoothIvar, Stage.fit, Stage.filterValid,
       Stage.coadd, Stage.finalClean, Stage.save] := by
  refine ⟨rfl, ?_⟩
  have h := (mpi_run_all_stage_order env2 (outcomeOf env2) rfl).1
  exact h.trans (by decide)

/-- C2: with sky, BAL and DLA masks all enabled, `mpi_read_masks` builds
the masker list in exactly the order sky mask, BAL mask, DLA mask, and
`apply_masks` applies that list to every spectrum front to back — sky
first, then BAL, then DLA, then the short-arm drop. -/
theorem apply_masks_sky_bal_dla_order (env : Env) (ps pb pd : String)
    (c : Catalog) (rest : List Catalog) (sl : List Spectrum)
    (hs : env.args.sky_mask = some ps) (hb : env.args.bal_mask = some pb)
    (hd : env.args.dla_mask = some pd) (hc : env.balCatalogOk c = true) :
    mpi_read_masks env (c :: rest) =
      .ok ([Masker.skyMask ps, Masker.balMaskClass,
            Masker.dlaMask pd (((c :: rest).map Catalog.targetids).flatten)
              DLAMask.default_dla_mask_limit],
           [Ev.skyRead ps, Ev.balCheck c, Ev.dlaRead pd]) ∧
    (apply_masks env
        [Masker.skyMask ps, Masker.balMaskClass,
         Masker.dlaMask pd (((c :: rest).map Catalog.targetids).flatten)
           DLAMask.default_dla_mask_limit] sl).1 =
      sl.map (fun s =>
        Spectrum.drop_short_arms env.minpix (fun _ => true)
          (Masker.apply env
            (Masker.dlaMask pd (((c :: rest).map Catalog.targetids).flatten)
              DLAMask.default_dla_mask_limit)
            (Masker.apply env Masker.balMaskClass
              (Masker.apply env (Masker.skyMask ps) s)))) := by
  constructor
  · unfold mpi_read_masks dlaBranch
    rw [hs, hb, hd]
    dsimp only
    rw [if_pos hc]
    rfl
  · rfl

/-- Concrete instance of C2: the three-mask environment produces exactly
the masker list sky, BAL, DLA, and applying it leaves the all-ones test
spectrum intact. -/
theorem apply_masks_sky_bal_dla_order_witness :
    mpi_read_masks env2 [cat0] =
      .ok ([Masker.skyMask "skyfile", Masker.balMaskClass,
            Masker.dlaMask "dlafile" (([cat0].map Catalog.targetids).flatten)
              DLAMask.default_dla_mask_limit],
           [Ev.skyRead "skyfile", Ev.balCheck cat0, Ev.dlaRead "dlafile"]) ∧
    (apply_masks env2
        [Masker.skyMask "skyfile", Masker.balMaskClass,
         Masker.dlaMask "dlafile" (([cat0].map Catalog.targetids).flatten)
           DLAMask.default_dla_mask_limit] [spec0]).1 = [spec0] := by
  have h := apply_masks_sky_bal_dla_order env2 "skyfile" "balflag" "dlafile"
    cat0 [] [spec0] rfl rfl rfl rfl
  exact ⟨h.1, h.2.trans (by decide)⟩

/-- C4: `mpi_read_spectra_local_queue` returns exactly the processed
reader spectra whose `rsnr` strictly exceeds `args.min_rsnr`; every
member of the returned working set satisfies the strict threshold, so a
spectrum at or below it is excluded. -/
theorem read_spectra_min_rsnr_filter (env : Env) (lq : List Catalog) :
    (mpi_read_spectra_local_queue env lq).1 =
      lq.flatMap (fun cat =>
        ((env.read_spectra_onehealpix cat).map
          (fun s => (processSpec env s).1)).filter
            (fun s => decide (env.args.min_rsnr < s.rsnr))) ∧
    ∀ s ∈ (mpi_read_spectra_local_queue env lq).1,
      env.args.min_rsnr < s.rsnr := by
  refine ⟨rfl, ?_⟩
  intro s hs
  unfold mpi_read_spectra_local_queue at hs
  simp only [List.mem_flatMap, List.mem_filter] at hs
  rcases hs with ⟨cat, -, -, h2⟩
  exact of_decide_eq_true h2

/-- Concrete instance of C4: the surviving test spectrum exceeds the
threshold. -/
theorem read_spectra_min_rsnr_filter_witness :
    env2.args.min_rsnr < ((processSpec env2 spec0).1).rsnr :=
  (read_spectra_min_rsnr_filter env2 [cat0]).2 _ (by decide)

/-- C5: `remove_short_spectra` returns its input list unchanged when the
skip ratio is zero, and otherwise returns exactly the sublist, in order,
of spectra for which `is_long` holds of the forest length
`lya2 - lya1` and the skip ratio. -/
theorem remove_short_spectra_spec (env : Env) (sl : List Spectrum)
    (lya1 lya2 : ℚ) :
    remove_short_spectra env sl lya1 lya2 0 = sl ∧
    ∀ sk : ℚ, sk ≠ 0 →
      remove_short_spectra env sl lya1 lya2 sk =
        sl.filter (fun s => env.is_long s (lya2 - lya1) sk) := by
  constructor
  · simp [remove_short_spectra]
  · intro sk hsk
    simp [remove_short_spectra, hsk]

/-- Concrete instance of C5: skip ratio zero leaves the list as is, and
a nonzero skip ratio filters by `is_long`. -/
theorem remove_short_spectra_spec_witness :
    remove_short_spectra env0 [spec0] 1040 1200 0 = [spec0] ∧
    remove_short_spectra env0 [spec0] 1040 1200 1 =
      [spec0].filter (fun s => env0.is_long s (1200 - 1040) 1) :=
  ⟨(remove_short_spectra_spec env0 [spec0] 1040 1200).1,
   (remove_short_spectra_spec env0 [spec0] 1040 1200).2 1 (by norm_num)⟩

/-- C7: `main` returns status 1 with the error logged whenever
`mpi_run_all` raises, and status 0 when it completes. -/
theorem main_error_status (env : Env) :
    (∀ e, mpi_run_all env = .error e → main env = (1, [Ev.errorLog e])) ∧
    (∀ o, mpi_run_all env = .ok o → main env = (0, [])) := by
  constructor
  · intro e he
    unfold main
    rw [he]
  · intro o ho
    unfold main
    rw [ho]

/-- Concrete instance of C7: a run raising an index error yields status
1 with the error reported, a completing run yields status 0. -/
theorem main_error_status_witness :
    main env3 = (1, [Ev.errorLog Err.indexError]) ∧ main env0 = (0, []) :=
  ⟨(main_error_status env3).1 Err.indexError rfl,
   (main_error_status env0).2 (outcomeOf env0) rfl⟩

/-- C8: immediately after a spectrum's forest region is set,
`remove_nonforest_pixels` is called exactly when `keep_nonforest_pixels`
is not set — with the option set, the spectrum keeps every pixel the
forest windowing left and only the forest-setting event occurs — and the
reading stage processes every reader spectrum this way. -/
theorem nonforest_removal_iff_not_kept (env : Env) (s : Spectrum)
    (lq : List Catalog) :
    (env.args.keep_nonforest_pixels = false →
      processSpec env s =
        (Spectrum.remove_nonforest_pixels env
          (Spectrum.set_forest_region env env.args.wave1 env.args.wave2
            env.args.forest_w1 env.args.forest_w2 s),
         [Ev.setForest s.targetid, Ev.removeNonforest s.targetid])) ∧
    (env.args.keep_nonforest_pixels = true →
      processSpec env s =
        (Spectrum.set_forest_region env env.args.wave1 env.args.wave2
          env.args.forest_w1 env.args.forest_w2 s,
         [Ev.setForest s.targetid])) ∧
    (mpi_read_spectra_local_queue env lq).2 =
      lq.flatMap (fun cat =>
        (env.read_spectra_onehealpix cat).flatMap
          (fun t => (processSpec env t).2)) := by
  refine ⟨?_, ?_, rfl⟩ <;> intro h <;> simp [processSpec, h]

/-- Concrete instance of C8: with the keep option unset, the non-forest
pixels of the test spectrum are removed right after forest setting. -/
theorem nonforest_removal_iff_not_kept_witness :
    processSpec env0 spec0 =
      (Spectrum.remove_nonforest_pixels env0
        (Spectrum.set_forest_region env0 env0.args.wave1 env0.args.wave2
          env0.args.forest_w1 env0.args.forest_w2 spec0),
       [Ev.setForest 7, Ev.removeNonforest 7]) :=
  (nonforest_removal_iff_not_kept env0 spec0 []).1 rfl

/-- C9: with an empty masker list, `apply_masks` returns immediately:
the spectra list is returned completely unchanged and no
`drop_short_arms` call happens, so arms already below the minimum
valid-pixel count are not dropped by the mask-application stage. -/
theorem apply_masks_empty_noop (env : Env) (sl : List Spectrum) :
    apply_masks env [] sl = (sl, []) ∧
    ∀ tid, Ev.dropShort tid ∉ (apply_masks env [] sl).2 := by
  constructor
  · rfl
  · intro tid h
    simp [apply_masks] at h

/-- Concrete instance of C9: the no-masker application leaves the test
list untouched and performs no short-arm drop. -/
theorem apply_masks_empty_noop_witness :
    apply_masks env0 [] [spec0] = ([spec0], []) ∧
    Ev.dropShort 7 ∉ (apply_masks env0 [] [spec0]).2 :=
  ⟨(apply_masks_empty_noop env0 [spec0]).1,
   (apply_masks_empty_noop env0 [spec0]).2 7⟩

/-- C10: with the BAL mask enabled, an empty local queue makes
`mpi_read_masks` raise the indexing error rather than skip the check,
and on success the BAL catalog check ran against exactly the first queue
element — no other slice — and the `BALMask` class itself (the
data-free variant, not a constructed instance) is in the masker list. -/
theorem bal_check_first_catalog_only (env : Env) (pb : String)
    (hb : env.args.bal_mask = some pb) :
    mpi_read_masks env [] = .error Err.indexError ∧
    ∀ c rest ms tr, mpi_read_masks env (c :: rest) = .ok (ms, tr) →
      tr.filterMap balCheckOf = [c] ∧ Masker.balMaskClass ∈ ms := by
  constructor
  · unfold mpi_read_masks
    rw [hb]
  · intro c rest ms tr h
    obtain ⟨base, hbase, hdla⟩ := mpi_read_masks_ok env (c :: rest) h
    rcases dlaBranch_ok env (c :: rest) base.1 base.2 hdla with
      ⟨-, rfl, rfl⟩ | ⟨p, -, rfl, rfl⟩ <;>
      rcases hbase with ⟨-, hbn, rfl⟩ | ⟨p2, -, hbn, rfl⟩ |
        ⟨c2, rest2, heq, -, (⟨-, -, rfl⟩ | ⟨p2, pb2, -, -, rfl⟩)⟩ <;>
      first
        | (rw [hb] at hbn; cases hbn)
        | (injection heq with h1 h2; subst h1; simp [balCheckOf])

/-- Concrete instance of C10: the empty-queue BAL environment raises the
index error; the one-slice environment checks exactly that slice and
carries the BAL class in its masker list. -/
theorem bal_check_first_catalog_only_witness :
    mpi_read_masks env3 [] = .error Err.indexError ∧
    (trOf env2 [cat0]).filterMap balCheckOf = [cat0] ∧
    Masker.balMaskClass ∈ msOf env2 [cat0] := by
  refine ⟨(bal_check_first_catalog_only env3 "balflag" rfl).1, ?_, ?_⟩
  · exact ((bal_check_first_catalog_only env2 "balflag" rfl).2 cat0 []
      (msOf env2 [cat0]) (trOf env2 [cat0]) rfl).1
  · exact ((bal_check_first_catalog_only env2 "balflag" rfl).2 cat0 []
      (msOf env2 [cat0]) (trOf env2 [cat0]) rfl).2

/-- C6: whenever the DLA mask option is set and `mpi_read_masks`
succeeds, the masker list contains the DLA masker constructed with the
transmission floor `dla_mask_limit` equal to the configurable default,
and that default is 0.8. -/
theorem dla_mask_limit_default (env : Env) (pd : String) (lq : List Catalog)
    (ms : List Masker) (tr : List Ev)
    (hd : env.args.dla_mask = some pd)
    (h : mpi_read_masks env lq = .ok (ms, tr)) :
    Masker.dlaMask pd ((lq.map Catalog.targetids).flatten)
      DLAMask.default_dla_mask_limit ∈ ms ∧
    DLAMask.default_dla_mask_limit = 4 / 5 := by
  constructor
  · obtain ⟨base, -, hdla⟩ := mpi_read_masks_ok env lq h
    rcases dlaBranch_ok env lq base.1 base.2 hdla with
      ⟨hn, -, -⟩ | ⟨p, hp, rfl, -⟩
    · rw [hd] at hn
      cases hn
    · rw [hd] at hp
      injection hp with hp2
      subst hp2
      simp
  · rw [DLAMask.default_dla_mask_limit, Rat.mk'_eq_divInt, Rat.divInt_eq_div]
    norm_num

/-- Concrete instance of C6: the three-mask environment carries the DLA
masker with the default 0.8 floor. -/
theorem dla_mask_limit_default_witness :
    Masker.dlaMask "dlafile" (([cat0].map Catalog.targetids).flatten)
      DLAMask.default_dla_mask_limit ∈ msOf env2 [cat0] ∧
    DLAMask.default_dla_mask_limit = 4 / 5 :=
  dla_mask_limit_default env2 "dlafile" [cat0]
    (msOf env2 [cat0]) (trOf env2 [cat0]) rfl rfl

/-- A spectrum of the post-masking working set descends from itself. -/
lemma descends_of_mem_masked (o : RunOutcome) (s : Spectrum)
    (h : s ∈ o.masked) : descends o s :=
  ⟨s, h, rfl, fun _ ha => Or.inr (List.mem_map_of_mem _ ha)⟩

/-- Descending is preserved by any transform keeping the target id and
introducing no arm identifier beyond the ancestor's and the coadded
one. -/
lemma descends_trans (o : RunOutcome) {s t : Spectrum} (hd : descends o t)
    (htid : s.targetid = t.targetid)
    (harm : ∀ a ∈ s.arms, a.id = ArmId.coadded ∨ a.id ∈ armIds t) :
    descends o s := by
  rcases hd with ⟨s0, hs0, htid0, harm0⟩
  refine ⟨s0, hs0, htid0.trans htid.symm, ?_⟩
  intro a ha
  rcases harm a ha with h1 | h1
  · exact Or.inl h1
  · rcases List.mem_map.mp h1 with ⟨b, hb, hbeq⟩
    rcases harm0 b hb with h2 | h2
    · exact Or.inl (hbeq ▸ h2)
    · exact Or.inr (hbeq ▸ h2)

/-- Descending is preserved by any transform keeping the target id whose
result's arm identifiers form a subset of the ancestor's. -/
lemma descends_of_armIds_sub (o : RunOutcome) {s t : Spectrum}
    (hd : descends o t) (htid : s.targetid = t.targetid)
    (hsub : armIds s ⊆ armIds t) : descends o s :=
  descends_trans o hd htid
    (fun _ ha => Or.inr (hsub (List.mem_map_of_mem _ ha)))

/-- With a nonempty masker list, the trace of `apply_masks` is, spectrum
by spectrum, the masker-application events followed by the short-arm
drop event. -/
lemma apply_masks_trace (env : Env) (ms : List Masker) (sl : List Spectrum)
    (hne : ms ≠ []) :
    (apply_masks env ms sl).2 =
      sl.flatMap (fun s =>
        ms.map (fun m => Ev.applyMask m.kind s.targetid)
          ++ [Ev.dropShort s.targetid]) := by
  unfold apply_masks
  rw [if_neg (by simpa [List.isEmpty_iff] using hne)]
  dsimp only
  induction sl with
  | nil => rfl
  | cons s t ih =>
    simp [ih, applyMaskersToSpec_snd, applyMaskersToSpec_fst_targetid]

/-- C3: in every successful run whose reader produces only instrument
arms, `drop_short_arms` runs after the masker loop of each spectrum (the
mask-stage trace is, per spectrum, all masker applications followed by
the drop event); every spectrum at every later stage descends from a
post-masking spectrum of the same target carrying all its non-coadded
arm identifiers; and no post-masking arm is the coadded one — so an arm
absent after the masking stage (in particular a dropped one) never
reappears at any later stage. -/
theorem arm_drop_permanent (env : Env) (o : RunOutcome)
    (h : mpi_run_all env = .ok o)
    (hr : ∀ cat, ∀ s ∈ env.read_spectra_onehealpix cat,
      ∀ a ∈ s.arms, a.id ≠ ArmId.coadded) :
    (o.maskers ≠ [] →
      (apply_masks env o.maskers o.spectra0).2 =
        o.spectra0.flatMap (fun s =>
          o.maskers.map (fun m => Ev.applyMask m.kind s.targetid)
            ++ [Ev.dropShort s.targetid])) ∧
    (∀ s, (s ∈ o.afterShort ∨ s ∈ o.afterSmooth ∨ s ∈ o.afterFit ∨
        s ∈ o.afterValid ∨ s ∈ o.afterCoadd ∨ s ∈ o.final) →
      descends o s) ∧
    (∀ s0 ∈ o.masked, ∀ a ∈ s0.arms, a.id ≠ ArmId.coadded) := by
  obtain ⟨trM, -, -, h0, h1, h2, h3, h4, h5, h6, h7, -⟩ :=
    mpi_run_all_fields env o h
  refine ⟨fun hne => apply_masks_trace env o.maskers o.spectra0 hne, ?_, ?_⟩
  · have hShort : ∀ u ∈ o.afterShort, descends o u := by
      intro u hu
      rw [h2] at hu
      exact descends_of_mem_masked o u
        (mem_remove_short_spectra env o.masked _ _ _ hu)
    have hSmooth : ∀ u ∈ o.afterSmooth, descends o u := by
      intro u hu
      rw [h3] at hu
      rcases List.mem_map.mp hu with ⟨t, ht, rfl⟩
      exact descends_of_armIds_sub o (hShort t ht) rfl
        (fun i hi => by rwa [armIds_set_smooth_ivar] at hi)
    have hFit : ∀ u ∈ o.afterFit, descends o u := by
      intro u hu
      rw [h4] at hu
      rcases List.mem_map.mp hu with ⟨t, ht, rfl⟩
      exact descends_of_armIds_sub o (hSmooth t ht) rfl (fun i hi => hi)
    have hValid : ∀ u ∈ o.afterValid, descends o u := by
      intro u hu
      rw [h5] at hu
      exact hFit u (List.mem_filter.mp hu).1
    have hCoadd : ∀ u ∈ o.afterCoadd, descends o u := by
      intro u hu
      rw [h6] at hu
      cases hc : env.args.coadd_arms
      · rw [hc] at hu
        rw [if_neg (by simp)] at hu
        exact hValid u hu
      · rw [hc] at hu
        rw [if_pos rfl] at hu
        rcases List.mem_map.mp hu with ⟨t, ht, rfl⟩
        refine descends_trans o (hValid t ht) rfl ?_
        intro a ha
        rcases List.mem_singleton.mp ha with rfl
        exact Or.inl rfl
    have hFinal : ∀ u ∈ o.final, descends o u := by
      intro u hu
      rw [h7] at hu
      rcases List.mem_map.mp hu with ⟨t, ht, rfl⟩
      exact descends_of_armIds_sub o (hCoadd t ht) rfl
        (armIds_drop_short_arms _ _ _)
    intro s hs
    rcases hs with hs | hs | hs | hs | hs | hs
    exacts [hShort s hs, hSmooth s hs, hFit s hs, hValid s hs,
      hCoadd s hs, hFinal s hs]
  · intro s0 hs0 a ha hcon
    rw [h1] at hs0
    obtain ⟨t, ht, -, hsub⟩ := mem_apply_masks env o.maskers o.spectra0 hs0
    rw [h0] at ht
    obtain ⟨cat, -, raw, hraw, rfl⟩ := mem_read_spectra env env.localQueue ht
    have harm : a.id ∈ armIds raw := by
      rw [← processSpec_fst_armIds env raw]
      exact hsub (List.mem_map_of_mem _ ha)
    rcases List.mem_map.mp harm with ⟨b, hb, hbeq⟩
    exact hr cat raw hraw b hb (hbeq.trans hcon)

/-- Concrete instance of C3: in the three-mask run the masking-stage
trace of the test spectrum is its three masker applications followed by
its short-arm drop. -/
theorem arm_drop_permanent_witness :
    (apply_masks env2 (outcomeOf env2).maskers (outcomeOf env2).spectra0).2 =
      [Ev.applyMask .sky 7, Ev.applyMask .bal 7, Ev.applyMask .dla 7,
       Ev.dropShort 7] := by
  have hr : ∀ cat, ∀ s ∈ env2.read_spectra_onehealpix cat,
      ∀ a ∈ s.arms, a.id ≠ ArmId.coadded := by
    intro cat s hs a ha
    simp only [env2, env0, List.mem_singleton] at hs
    subst hs
    simp only [spec0, List.mem_singleton] at ha
    subst ha
    decide
  have h := (arm_drop_permanent env2 (outcomeOf env2) rfl hr).1 (by decide)
  exact h.trans (by decide)

end QsonicFit
